import Mathlib

/-!
Shallow embedding of the TextDBX engine (src/textdbx/examples/TextDBX.ts, with the
points where src/textdbx/src/TextDBX.ts differs modelled separately where a claim
cites it).  Records and filters are runtime JavaScript values; we model them as a
JSON-like inductive with an explicit `undefined`, since property access on a missing
key yields `undefined` in the source and several behaviours hinge on it.
-/

namespace TextDBX

/-- A JavaScript runtime value as the engine sees it: the JSON constructors plus
`undefined` (result of accessing an absent property).  Numbers are modelled as
integers, which covers every comparison the claims exercise. -/
inductive JSValue : Type
  | undefined : JSValue
  | null : JSValue
  | bool (b : Bool) : JSValue
  | num (n : Int) : JSValue
  | str (s : String) : JSValue
  | arr (elems : List JSValue) : JSValue
  | obj (fields : List (String × JSValue)) : JSValue

/-- First binding of a key in an object's field list; `undefined` when absent
(JavaScript property access on a missing key). -/
def lookupField : List (String × JSValue) → String → JSValue
  | [], _ => .undefined
  | (k, v) :: rest, key => if k = key then v else lookupField rest key

/-- Property access `v[key]`: object lookup; anything else yields `undefined`
(the engine only ever accesses string keys on records and filter nodes). -/
def getProp : JSValue → String → JSValue
  | .obj fs, key => lookupField fs key
  | _, _ => .undefined

/-- Whether a key is bound in an object's field list. -/
def hasKey : List (String × JSValue) → String → Bool
  | [], _ => false
  | (k, _) :: rest, key => if k = key then true else hasKey rest key

/-- The test `typeof v === 'object'` of the source: true for objects, arrays and
`null` (a JavaScript quirk). -/
def isObjType : JSValue → Bool
  | .obj _ => true
  | .arr _ => true
  | .null => true
  | _ => false

/-- JavaScript truthiness, as used by `if (!filter)` and `val.$contains` tests. -/
def truthy : JSValue → Bool
  | .undefined => false
  | .null => false
  | .bool b => b
  | .num n => n != 0
  | .str s => !s.isEmpty
  | .arr _ => true
  | .obj _ => true

/-- Strict equality `===` as the matcher applies it between a record's field and a
filter value: value equality on primitives; objects and arrays compare by
reference, and the filter's nodes and the loaded records are always distinct
allocations in the source, so those comparisons are `false`. -/
def jsStrictEq : JSValue → JSValue → Bool
  | .undefined, .undefined => true
  | .null, .null => true
  | .bool a, .bool b => a == b
  | .num a, .num b => a == b
  | .str a, .str b => a == b
  | _, _ => false

/-- The key/value pairs a `for (const key in v)` loop visits: an object's own
fields, an array's indices, nothing for primitives. -/
def ownKeys : JSValue → List (String × JSValue)
  | .obj fs => fs
  | .arr xs => xs.enum.map (fun p => (toString p.1, p.2))
  | _ => []

/-- One iteration of the matcher's loop (examples/TextDBX.ts lines 317-322): a
filter entry `key ↦ val` with `typeof val === 'object' && val !== null &&
val.$contains` demands the record's field be an array containing the sought
element; any other entry demands strict equality with the record's field. -/
def matchPair (row : JSValue) (key : String) (val : JSValue) : Bool :=
  if isObjType val && !(jsStrictEq val .null) && truthy (getProp val "$contains") then
    match getProp row key with
    | .arr xs => xs.any (fun x => jsStrictEq x (getProp val "$contains"))
    | _ => false
  else
    jsStrictEq (getProp row key) val

/-- matchFilter (examples/TextDBX.ts lines 315-324; src/TextDBX.ts lines 96-105
is identical except that it omits the `val !== null` guard, which no claim's
input exercises).  A falsy filter (absent, `null`, `undefined`) matches every
record; otherwise every entry of the filter object must hold. -/
def matchFilter (row : JSValue) (filter : JSValue) : Bool :=
  if !truthy filter then true
  else (ownKeys filter).all (fun kv => matchPair row kv.1 kv.2)

/-- Replace the value bound to a key, keeping every key in place. -/
def replaceProp : List (String × JSValue) → String → JSValue → List (String × JSValue)
  | [], _, _ => []
  | (k, w) :: rest, key, v =>
    if k = key then (k, v) :: replaceProp rest key v
    else (k, w) :: replaceProp rest key v

/-- JavaScript property assignment `o[k] = v` on the model's field list: an
existing binding is overwritten in place (the key keeps its position), a new key
is appended. -/
def setProp (fields : List (String × JSValue)) (k : String) (v : JSValue) :
    List (String × JSValue) :=
  if hasKey fields k then replaceProp fields k v
  else fields ++ [(k, v)]

/-- projectFields (examples/TextDBX.ts lines 326-331; src/TextDBX.ts lines
107-112, identical).  Without a field list the row is returned as is; otherwise
`projected[f] = row[f]` runs for each listed field — note that this assigns
`undefined` (and hence creates the key) when the row lacks the field. -/
def projectFields (row : JSValue) (fields : Option (List String)) : JSValue :=
  match fields with
  | none => row
  | some fs => .obj (fs.foldl (fun acc f => setProp acc f (getProp row f)) [])

/-- Keys of the object produced by a projection (in order). -/
def objKeys : JSValue → List String
  | .obj fs => fs.map Prod.fst
  | _ => []

/-! Storage layer.  File contents are character lists (the source reads and
writes files as utf8 strings); paths are strings.  Node's crypto and JSON
primitives are external libraries the engine calls, so they enter the model as
parameters collected in `Platform`; everything the repository itself computes —
the hex coding, the `:`-joined envelope, the file plumbing — is defined
concretely below. -/

/-- External primitives of the Node runtime the engine calls: the SHA-256
digest (bytes of the hash of the passphrase), AES-256-CBC encryption and
decryption (decryption fails on a bad padding check), and the JSON codec
(`JSON.stringify(data, null, 2)` and `JSON.parse`, the latter throwing on
malformed input). -/
structure Platform where
  sha256 : String → List Nat
  aesEnc : List Nat → List Nat → List Char → List Nat
  aesDec : List Nat → List Nat → List Nat → Option (List Char)
  jsonStringify : List JSValue → List Char
  jsonParse : List Char → Option JSValue

/-- The engine configuration fields the storage layer consults. -/
structure Config where
  database : String
  encryptionKey : String
  encrypted : Bool

/-- File-system contents: path to file bytes (as characters). -/
def FStore : Type := String → Option (List Char)

/-- Overwrite (or create) one file. -/
def setFile (fs : FStore) (p : String) (c : List Char) : FStore :=
  fun q => if q = p then some c else fs q

/-- File-system operations a save performs, recorded in order. -/
inductive FSOp : Type
  | copy (src dst : String)
  | write (p : String)
  | rename (src dst : String)
deriving DecidableEq

/-- Lower-case hex digit of a value below 16 (Node's Buffer.toString hex). -/
def hexDigit (n : Nat) : Char :=
  if n < 10 then Char.ofNat (48 + n) else Char.ofNat (87 + n)

/-- Hex encoding of a byte list, two lower-case digits per byte, as
Buffer.toString with encoding hex produces. -/
def hexEncode : List Nat → List Char
  | [] => []
  | b :: bs => hexDigit (b / 16 % 16) :: hexDigit (b % 16) :: hexEncode bs

/-- Value of one hex digit (Buffer.from with encoding hex accepts both cases). -/
def hexVal (c : Char) : Option Nat :=
  if 48 ≤ c.toNat ∧ c.toNat ≤ 57 then some (c.toNat - 48)
  else if 97 ≤ c.toNat ∧ c.toNat ≤ 102 then some (c.toNat - 87)
  else if 65 ≤ c.toNat ∧ c.toNat ≤ 70 then some (c.toNat - 55)
  else none

/-- Hex decoding as Buffer.from with encoding hex behaves: consume pairs of
digits greedily and stop (truncating, not failing) at the first invalid pair or
odd trailing digit. -/
def hexDecode : List Char → List Nat
  | c1 :: c2 :: rest =>
    match hexVal c1, hexVal c2 with
    | some h, some l => (16 * h + l) :: hexDecode rest
    | _, _ => []
  | _ => []

/-- The split of a string on a separator character, as the source's
data.split does (adjacent separators give empty segments; never empty). -/
def splitOnChar (c : Char) : List Char → List (List Char)
  | [] => [[]]
  | x :: xs =>
    match splitOnChar c xs with
    | [] => [[]]
    | r :: rs => if x = c then [] :: r :: rs else (x :: r) :: rs

/-- Whether a string is blank, modelling the falsiness of raw.trim() in the
source's empty-file check. -/
def isBlank (s : List Char) : Bool := s.all (fun c => c.isWhitespace)

/-- encrypt (examples/TextDBX.ts lines 94-104; src/TextDBX.ts lines 43-49,
identical): the AES key is the SHA-256 digest of the configured passphrase, the
IV is 16 random bytes (supplied here as the argument iv), and the output is the
hex IV and hex ciphertext joined by a colon — two fields, no salt.  The
createCipheriv calls in the source throw when the key is not 32 bytes or the IV
is not 16 bytes, surfaced by the source's catch as an encryption error. -/
def encrypt (p : Platform) (cfg : Config) (iv : List Nat) (data : List Char) :
    Except String (List Char) :=
  let key := p.sha256 cfg.encryptionKey
  if key.length ≠ 32 then .error "Encryption failed: Invalid key length"
  else if iv.length ≠ 16 then .error "Encryption failed: Invalid initialization vector"
  else .ok (hexEncode iv ++ ':' :: hexEncode (p.aesEnc key iv data))

/-- decrypt (examples/TextDBX.ts lines 106-127): reject data without a colon;
split on the colon and take the first two segments as hex IV and hex
ciphertext; reject when either is empty; decode and decipher, the
createDecipheriv and final calls throwing (key or IV of wrong length, padding
check failure) being surfaced as a decryption error. -/
def decrypt (p : Platform) (cfg : Config) (data : List Char) :
    Except String (List Char) :=
  if data.isEmpty || !data.contains ':' then
    .error "Decryption failed: Invalid encrypted data format"
  else
    let key := p.sha256 cfg.encryptionKey
    let parts := splitOnChar ':' data
    let ivHex := parts.headD []
    let encHex := (parts.drop 1).headD []
    if ivHex.isEmpty || encHex.isEmpty then
      .error "Decryption failed: Invalid encrypted data format"
    else
      let iv := hexDecode ivHex
      let enc := hexDecode encHex
      if key.length ≠ 32 then .error "Decryption failed: Invalid key length"
      else if iv.length ≠ 16 then .error "Decryption failed: Invalid initialization vector"
      else
        match p.aesDec key iv enc with
        | some s => .ok s
        | none => .error "Decryption failed: bad decrypt"

/-- Path of a collection file, path.join(database, collection + extension). -/
def tdbxPath (cfg : Config) (collection : String) : String :=
  cfg.database ++ "/" ++ collection ++ ".tdbx"

/-- saveFile (examples/TextDBX.ts lines 201-228): serialize with
JSON.stringify(data, null, 2), encrypt when the mode is encrypted, copy any
existing file to its fixed sibling backup path, then write the new content
directly to the collection path (no temporary file, no rename).  Returns the
outcome, the new file store, and the trace of file operations performed. -/
def saveFile (p : Platform) (cfg : Config) (iv : List Nat) (fs : FStore)
    (collection : String) (data : List JSValue) :
    Except String Unit × FStore × List FSOp :=
  let json := p.jsonStringify data
  let rawE := if cfg.encrypted then encrypt p cfg iv json else .ok json
  match rawE with
  | .error e => (.error ("Failed to save " ++ collection ++ ": " ++ e), fs, [])
  | .ok raw =>
    let fp := tdbxPath cfg collection
    match fs fp with
    | some cur =>
      (.ok (), setFile (setFile fs (fp ++ ".backup") cur) fp raw,
        [.copy fp (fp ++ ".backup"), .write fp])
    | none => (.ok (), setFile fs fp raw, [.write fp])

/-- saveFile of the minimal copy (src/TextDBX.ts lines 69-73): serialize,
encrypt when configured, and write directly to the collection path — no backup,
no temporary file, no rename. -/
def saveFileSrc (p : Platform) (cfg : Config) (iv : List Nat) (fs : FStore)
    (collection : String) (data : List JSValue) :
    Except String Unit × FStore × List FSOp :=
  let json := p.jsonStringify data
  let rawE := if cfg.encrypted then encrypt p cfg iv json else .ok json
  match rawE with
  | .error e => (.error e, fs, [])
  | .ok raw =>
    let fp := tdbxPath cfg collection
    (.ok (), setFile fs fp raw, [.write fp])

/-- loadFile (examples/TextDBX.ts lines 129-199).  The argument now stands for
Date.now() rendered as a string, used in the corrupted-file backup name.  An
absent file yields the empty array.  A blank file is re-initialised through
saveFile and yields the empty array.  In encrypted mode the content is
decrypted; note that the throw on decryption failure at line 162 happens inside
the surrounding try block, so the catch at line 195 swallows it and the
function returns the empty array.  A JSON parse failure copies the original
bytes to a timestamped backup, re-initialises the file through saveFile, and
yields the empty array; a parsed non-array is wrapped in a one-element array.
Every internal throw (including saveFile failures) is caught by the
catch at line 195, so the function is total and never surfaces an error. -/
def loadFile (p : Platform) (cfg : Config) (iv : List Nat) (now : String)
    (fs : FStore) (collection : String) : List JSValue × FStore :=
  let fp := tdbxPath cfg collection
  match fs fp with
  | none => ([], fs)
  | some raw =>
    if isBlank raw then
      ([], (saveFile p cfg iv fs collection []).2.1)
    else
      let jsonE := if cfg.encrypted then decrypt p cfg raw else .ok raw
      match jsonE with
      | .error _ => ([], fs)
      | .ok json =>
        match p.jsonParse json with
        | some (.arr xs) => (xs, fs)
        | some v => ([v], fs)
        | none =>
          let fs1 := setFile fs (fp ++ ".backup." ++ now) raw
          ([], (saveFile p cfg iv fs1 collection []).2.1)

/-- checkPermission (examples/TextDBX.ts lines 272-284): the configured role
must be present in the auth table and list the requested action. -/
def checkPermission (auth : List (String × List String)) (role action : String) :
    Except String Unit :=
  match auth.lookup role with
  | none => .error ("Role " ++ role ++ " not found in authentication configuration")
  | some acts =>
    if acts.contains action then .ok ()
    else .error ("Permission denied: Role " ++ role ++ " cannot perform " ++ action)

/-- validateCollectionName (examples/TextDBX.ts lines 292-304) as a predicate:
non-empty, only letters, digits, underscore and hyphen, and not starting with a
dot (the regex already excludes dots; the source checks both). -/
def validName (collection : String) : Bool :=
  let cs := collection.toList
  !cs.isEmpty
    && cs.all (fun c => c.isAlphanum || c = '_' || c = '-')
    && !(cs.headD ' ' = '.')

/-- queryObject (examples/TextDBX.ts lines 306-313): permission check, name
check, then load and apply the filter and projection to each record.  An absent
filter is the undefined value; an absent field list is none. -/
def queryObject (p : Platform) (cfg : Config) (auth : List (String × List String))
    (role : String) (iv : List Nat) (now : String) (fs : FStore)
    (collection : String) (filter : JSValue) (fields : Option (List String)) :
    Except String (List JSValue) × FStore :=
  match checkPermission auth role "query" with
  | .error e => (.error e, fs)
  | .ok _ =>
    if !validName collection then
      (.error "Collection name invalid", fs)
    else
      let r := loadFile p cfg iv now fs collection
      (.ok ((r.1.filter (fun row => matchFilter row filter)).map
        (fun row => projectFields row fields)), r.2)

/-- delete (examples/TextDBX.ts lines 368-379): permission check, name check,
load, retain the records that do not match the filter, save, and return the
number removed. -/
def deleteOp (p : Platform) (cfg : Config) (auth : List (String × List String))
    (role : String) (iv : List Nat) (now : String) (fs : FStore)
    (collection : String) (filter : JSValue) :
    Except String Nat × FStore × List FSOp :=
  match checkPermission auth role "delete" with
  | .error e => (.error e, fs, [])
  | .ok _ =>
    if !validName collection then
      (.error "Collection name invalid", fs, [])
    else
      let r := loadFile p cfg iv now fs collection
      let filtered := r.1.filter (fun row => !matchFilter row filter)
      let s := saveFile p cfg iv r.2 collection filtered
      match s.1 with
      | .ok _ => (.ok (r.1.length - filtered.length), s.2.1, s.2.2)
      | .error e => (.error e, s.2.1, s.2.2)

/-! Transaction manager. -/

/-- Semantic content of the database: records per collection (a collection
file that does not exist reads as the empty array). -/
def Disk : Type := String → List JSValue

/-- A pending mutation recorded in a transaction, as a function on the
collection's records. -/
def TxMut : Type := List JSValue → List JSValue

/-- First snapshot recorded for a collection, if any. -/
def findSnap : List (String × List JSValue) → String → Option (List JSValue)
  | [], _ => none
  | (k, v) :: rest, c => if k = c then some v else findSnap rest c

/-- Modelled from the spec: the transaction manager (spec section 4.I) is not
among the source files — only its callers (examples/example.ts, the
beginTransaction, commitTransaction and rollbackTransaction calls) and the
repository README describe it.  Per the spec, a pending transaction holds an
ordered list of pending operations and a mapping collection to pre-image
snapshot. -/
structure SpecTxn where
  ops : List (String × TxMut)
  backups : List (String × List JSValue)

/-- Modelled from the spec: begin allocates an empty pending transaction. -/
def txBegin : SpecTxn := ⟨[], []⟩

/-- Modelled from the spec: each mutation inside a transaction is recorded as a
pending operation, and before recording the first operation against a
collection the current on-disk records are snapshotted into the transaction's
backup map. -/
def txRecord (disk : Disk) (t : SpecTxn) (c : String) (m : TxMut) : SpecTxn :=
  { ops := t.ops ++ [(c, m)]
    backups :=
      if (findSnap t.backups c).isSome then t.backups
      else t.backups ++ [(c, disk c)] }

/-- Recording a whole list of mutations, in order, against a disk state that
recording does not change (operations are only enqueued until commit). -/
def txRecordAll (disk : Disk) (t : SpecTxn) (ops : List (String × TxMut)) : SpecTxn :=
  ops.foldl (fun acc op => txRecord disk acc op.1 op.2) t

/-- Modelled from the spec: rollback rewrites, for every snapshotted
collection, the file with the snapshot contents, and clears the transaction.
It acts on whatever disk state is current (commit may have replayed a prefix of
the operations before failing). -/
def txRollback (t : SpecTxn) (disk : Disk) : Disk × Option SpecTxn :=
  (fun c => (findSnap t.backups c).getD (disk c), none)

/-- A collection is touched by a transaction when a snapshot was recorded for
it. -/
def txTouched (t : SpecTxn) (c : String) : Bool := (findSnap t.backups c).isSome

/-- A concrete pre-transaction database used by closed theorems. -/
def dWit : Disk := fun _ => [JSValue.num 1]

/-- A concrete mid-commit database (some operations already replayed) used by
closed theorems. -/
def d2Wit : Disk := fun _ => [JSValue.num 1, JSValue.num 9]

/-- A concrete operation list (an insert into collection A and a no-op write
to collection B) used by closed theorems. -/
def opsWit : List (String × TxMut) :=
  [("A", fun recs => recs ++ [JSValue.num 9]), ("B", fun recs => recs)]

/-! Concrete fixtures used by the closed theorems: a platform whose external
primitives are executable stand-ins (an identity-on-ASCII cipher, a digest of
fixed length, a JSON codec pinned to the inputs the closed theorems use), plus
small configurations and file stores. -/

/-- Executable stand-in for the external primitives, used to evaluate the model
on closed inputs: the digest is 32 fixed bytes, the cipher maps characters to
their code points (inverted by decryption), and the JSON codec is pinned to the
one-element array used by the closed theorems. -/
def toyPlatform : Platform where
  sha256 := fun _ => List.range 32
  aesEnc := fun _ _ s => s.map Char.toNat
  aesDec := fun _ _ bs => some (bs.map Char.ofNat)
  jsonStringify := fun _ => ['[', '1', ']']
  jsonParse := fun _ => some (.arr [.num 1])

/-- Stand-in platform whose JSON parser rejects every input, for exercising the
corrupted-file path on closed inputs. -/
def toyPlatformBadJson : Platform where
  sha256 := fun _ => List.range 32
  aesEnc := fun _ _ s => s.map Char.toNat
  aesDec := fun _ _ bs => some (bs.map Char.ofNat)
  jsonStringify := fun _ => ['[', ']']
  jsonParse := fun _ => none

/-- A plain-mode configuration for closed theorems. -/
def plainCfg : Config := ⟨"db", "secret-key", false⟩

/-- An encrypted-mode configuration for closed theorems. -/
def encCfg : Config := ⟨"db", "secret-key", true⟩

/-- The default admin role table of the source. -/
def toyAuth : List (String × List String) :=
  [("admin", ["query", "insert", "update", "delete", "index"])]

/-- A fixed 16-byte IV for closed theorems. -/
def toyIv : List Nat := List.replicate 16 7

/-- A file store holding exactly one file. -/
def fsSingle (path : String) (content : List Char) : FStore :=
  setFile (fun _ => none) path content

/-- Whether a recorded file operation is a rename. -/
def isRename : FSOp → Bool
  | .rename _ _ => true
  | _ => false

/-- The payload of a successful result, with a default for errors (used only to
state closed theorems compactly). -/
def okD (e : Except String (List Char)) : List Char :=
  match e with
  | .ok v => v
  | .error _ => []

/-- The collection path the closed theorems exercise. -/
def fp0 : String := tdbxPath plainCfg "users"

/-- A file store where that collection holds the plain empty array. -/
def fs0 : FStore := fsSingle fp0 ['[', ']']

end TextDBX

namespace TextDBX

/-! Auxiliary lemmas about the concrete coding functions. -/

theorem string_ne_of_length_ne {s t : String} (h : s.length ≠ t.length) : s ≠ t :=
  fun e => h (congrArg String.length e)

theorem append_ne_self_of_ne_empty (s t : String) (h : t.length ≠ 0) : s ++ t ≠ s := by
  apply string_ne_of_length_ne
  rw [String.length_append]
  omega

theorem hexDigit_ne_colon {n : Nat} (h : n < 16) : hexDigit n ≠ ':' := by
  interval_cases n <;> decide

theorem colon_not_mem_hexEncode (bs : List Nat) : ':' ∉ hexEncode bs := by
  induction bs with
  | nil => simp [hexEncode]
  | cons b bs ih =>
    simp only [hexEncode, List.mem_cons, not_or]
    exact ⟨Ne.symm (hexDigit_ne_colon (Nat.mod_lt _ (by norm_num))),
      Ne.symm (hexDigit_ne_colon (Nat.mod_lt _ (by norm_num))), ih⟩

theorem splitOnChar_ne_nil (c : Char) (s : List Char) : splitOnChar c s ≠ [] := by
  cases s with
  | nil => simp [splitOnChar]
  | cons x xs =>
    rw [splitOnChar]
    cases h : splitOnChar c xs with
    | nil => simp
    | cons r rs =>
      by_cases hx : x = c <;> simp [hx]

theorem splitOnChar_not_mem {c : Char} {a : List Char} (h : c ∉ a) :
    splitOnChar c a = [a] := by
  induction a with
  | nil => rfl
  | cons x xs ih =>
    simp only [List.mem_cons, not_or] at h
    have hx : ¬ x = c := fun e => h.1 e.symm
    rw [splitOnChar, ih h.2]
    simp [hx]

theorem splitOnChar_append {c : Char} (a b : List Char) (h : c ∉ a) :
    splitOnChar c (a ++ c :: b) = a :: splitOnChar c b := by
  induction a with
  | nil =>
    simp only [List.nil_append]
    rw [splitOnChar]
    cases hs : splitOnChar c b with
    | nil => exact absurd hs (splitOnChar_ne_nil c b)
    | cons r rs => simp
  | cons x xs ih =>
    simp only [List.mem_cons, not_or] at h
    have hx : ¬ x = c := fun e => h.1 e.symm
    simp only [List.cons_append]
    rw [splitOnChar, ih h.2]
    simp [hx]

theorem hexVal_hexDigit {n : Nat} (h : n < 16) : hexVal (hexDigit n) = some n := by
  interval_cases n <;> decide

theorem hexDecode_hexEncode {bs : List Nat} (h : ∀ b ∈ bs, b < 256) :
    hexDecode (hexEncode bs) = bs := by
  induction bs with
  | nil => rfl
  | cons b bs ih =>
    have hb : b < 256 := h b (by simp)
    have h1 : b / 16 % 16 < 16 := Nat.mod_lt _ (by norm_num)
    have h2 : b % 16 < 16 := Nat.mod_lt _ (by norm_num)
    have key : 16 * (b / 16 % 16) + b % 16 = b := by
      have hd : b / 16 < 16 := by omega
      rw [Nat.mod_eq_of_lt hd]
      omega
    simp only [hexEncode, hexDecode, hexVal_hexDigit h1, hexVal_hexDigit h2]
    rw [key, ih (fun x hx => h x (List.mem_cons_of_mem _ hx))]

theorem hexEncode_ne_nil {bs : List Nat} (h : bs ≠ []) : hexEncode bs ≠ [] := by
  cases bs with
  | nil => exact absurd rfl h
  | cons b t => simp [hexEncode]

theorem isBlank_append_colon (a b : List Char) : isBlank (a ++ ':' :: b) = false := by
  have hni : ¬ ∀ c ∈ a ++ ':' :: b, c.isWhitespace = true := by
    intro hall
    have := hall ':' (by simp)
    simp at this
  simp [isBlank, List.all_eq_true, hni]

theorem contains_append_colon (a b : List Char) : (a ++ ':' :: b).contains ':' = true := by
  have hm : (':' : Char) ∈ a ++ ':' :: b := by simp
  simp [List.contains, List.elem_eq_mem, hm]

theorem isEmpty_append_colon (a b : List Char) : (a ++ ':' :: b).isEmpty = false := by
  cases a <;> simp [List.isEmpty]

theorem isEmpty_eq_false_of_ne_nil {α : Type} {l : List α} (h : l ≠ []) :
    l.isEmpty = false := by
  cases l with
  | nil => exact absurd rfl h
  | cons a t => rfl

theorem setFile_self (fs : FStore) (p : String) (c : List Char) :
    setFile fs p c p = some c := by
  simp [setFile]

theorem setFile_ne (fs : FStore) (p : String) (c : List Char) (q : String)
    (h : q ≠ p) : setFile fs p c q = fs q := by
  simp [setFile, h]

theorem filter_const_false {α : Type} (l : List α) :
    l.filter (fun _ => false) = [] := by
  induction l with
  | nil => rfl
  | cons a t ih => simp [List.filter, ih]

theorem hasKey_append (a b : List (String × JSValue)) (k : String) :
    hasKey (a ++ b) k = (hasKey a k || hasKey b k) := by
  induction a with
  | nil => simp [hasKey]
  | cons kv rest ih =>
    by_cases h : kv.1 = k <;> simp [hasKey, h, ih]

theorem setProp_of_not_has {a : List (String × JSValue)} {f : String}
    (v : JSValue) (h : hasKey a f = false) : setProp a f v = a ++ [(f, v)] := by
  simp [setProp, h]

theorem lookupField_append (a b : List (String × JSValue)) (f : String) :
    lookupField (a ++ b) f =
      if hasKey a f then lookupField a f else lookupField b f := by
  induction a with
  | nil => simp [hasKey, lookupField]
  | cons kv rest ih =>
    by_cases h : kv.1 = f <;> simp_all [hasKey, lookupField]

theorem lookupField_of_not_has {a : List (String × JSValue)} {f : String}
    (h : hasKey a f = false) : lookupField a f = .undefined := by
  induction a with
  | nil => rfl
  | cons kv rest ih =>
    by_cases hk : kv.1 = f <;> simp_all [hasKey, lookupField]

theorem lookupField_replaceProp (a : List (String × JSValue)) (g f : String)
    (v : JSValue) (hne : g ≠ f) :
    lookupField (replaceProp a g v) f = lookupField a f := by
  induction a with
  | nil => rfl
  | cons kv rest ih =>
    rcases kv with ⟨k, w⟩
    rw [replaceProp]
    by_cases hkg : k = g
    · have hkf : ¬ k = f := fun e => hne (hkg.symm.trans e)
      rw [if_pos hkg, lookupField, lookupField, if_neg hkf, if_neg hkf, ih]
    · rw [if_neg hkg, lookupField, lookupField]
      by_cases hkf : k = f
      · rw [if_pos hkf, if_pos hkf]
      · rw [if_neg hkf, if_neg hkf, ih]

theorem lookupField_setProp_ne (a : List (String × JSValue)) (g f : String)
    (v : JSValue) (hne : g ≠ f) : lookupField (setProp a g v) f = lookupField a f := by
  rw [setProp]
  by_cases h : hasKey a g = true
  · rw [if_pos h]
    exact lookupField_replaceProp a g f v hne
  · rw [if_neg h, lookupField_append]
    by_cases hf : hasKey a f = true
    · rw [if_pos hf]
    · rw [if_neg hf]
      simp only [Bool.not_eq_true] at hf
      rw [lookupField_of_not_has hf]
      simp [lookupField, fun e : g = f => hne e]

theorem map_fst_setProp {a : List (String × JSValue)} {f : String}
    (v : JSValue) (h : hasKey a f = false) :
    (setProp a f v).map Prod.fst = a.map Prod.fst ++ [f] := by
  rw [setProp_of_not_has v h]
  simp

theorem lookupField_setProp_self {acc : List (String × JSValue)} {f : String}
    (v : JSValue) (h : hasKey acc f = false) :
    lookupField (setProp acc f v) f = v := by
  rw [setProp_of_not_has v h, lookupField_append, h]
  simp [lookupField]

theorem lookupField_foldl_not_mem (row : JSValue) (fs : List String)
    (acc : List (String × JSValue)) (f : String) (h : f ∉ fs) :
    lookupField (fs.foldl (fun a g => setProp a g (getProp row g)) acc) f =
      lookupField acc f := by
  induction fs generalizing acc with
  | nil => rfl
  | cons x xs ih =>
    have hx : x ≠ f := fun e => h (by simp [e])
    rw [List.foldl_cons, ih _ (fun hm => h (List.mem_cons_of_mem _ hm)),
      lookupField_setProp_ne _ _ _ _ hx]

theorem foldl_setProp_keys (row : JSValue) (fields : List String)
    (acc : List (String × JSValue)) (hnd : fields.Nodup)
    (hdisj : ∀ f ∈ fields, hasKey acc f = false) :
    (fields.foldl (fun a f => setProp a f (getProp row f)) acc).map Prod.fst =
      acc.map Prod.fst ++ fields ∧
    ∀ f ∈ fields,
      lookupField (fields.foldl (fun a f => setProp a f (getProp row f)) acc) f =
        getProp row f := by
  induction fields generalizing acc with
  | nil => simp
  | cons f fs ih =>
    have hf : hasKey acc f = false := hdisj f (by simp)
    have hnd' : fs.Nodup := (List.nodup_cons.mp hnd).2
    have hfnot : f ∉ fs := (List.nodup_cons.mp hnd).1
    have hdisj' : ∀ g ∈ fs, hasKey (setProp acc f (getProp row f)) g = false := by
      intro g hg
      rw [setProp_of_not_has _ hf, hasKey_append]
      have hga : hasKey acc g = false := hdisj g (List.mem_cons_of_mem _ hg)
      have hgf : ¬ f = g := fun e => hfnot (e ▸ hg)
      simp [hga, hasKey, hgf]
    obtain ⟨hkeys, hlook⟩ := ih (setProp acc f (getProp row f)) hnd' hdisj'
    constructor
    · rw [List.foldl_cons, hkeys, map_fst_setProp _ hf]
      simp
    · intro g hg
      rcases List.mem_cons.mp hg with hg1 | hg2
      · subst hg1
        rw [List.foldl_cons, lookupField_foldl_not_mem row fs _ g hfnot,
          lookupField_setProp_self _ hf]
      · rw [List.foldl_cons]
        exact hlook g hg2

/-- The envelope round trip: under the facts the Node runtime guarantees (a
32-byte digest, a 16-byte IV of bytes, a non-empty byte ciphertext inverted by
the deciphering call), encrypt produces the hex iv:ciphertext envelope and
decrypt recovers the plaintext from it. -/
theorem decrypt_encrypt_ok (p : Platform) (cfg : Config) (iv : List Nat)
    (data : List Char)
    (hkey : (p.sha256 cfg.encryptionKey).length = 32)
    (hiv : iv.length = 16) (hivb : ∀ b ∈ iv, b < 256)
    (hctne : p.aesEnc (p.sha256 cfg.encryptionKey) iv data ≠ [])
    (hctb : ∀ b ∈ p.aesEnc (p.sha256 cfg.encryptionKey) iv data, b < 256)
    (hdec : p.aesDec (p.sha256 cfg.encryptionKey) iv
      (p.aesEnc (p.sha256 cfg.encryptionKey) iv data) = some data) :
    encrypt p cfg iv data =
      .ok (hexEncode iv ++ ':' ::
        hexEncode (p.aesEnc (p.sha256 cfg.encryptionKey) iv data)) ∧
    decrypt p cfg (hexEncode iv ++ ':' ::
        hexEncode (p.aesEnc (p.sha256 cfg.encryptionKey) iv data)) = .ok data := by
  have hivne : iv ≠ [] := by
    intro e
    rw [e] at hiv
    simp at hiv
  have hsplit : splitOnChar ':'
      (hexEncode iv ++ ':' :: hexEncode (p.aesEnc (p.sha256 cfg.encryptionKey) iv data)) =
      [hexEncode iv, hexEncode (p.aesEnc (p.sha256 cfg.encryptionKey) iv data)] := by
    rw [splitOnChar_append _ _ (colon_not_mem_hexEncode iv),
      splitOnChar_not_mem (colon_not_mem_hexEncode _)]
  constructor
  · simp [encrypt, hkey, hiv]
  · rw [decrypt]
    rw [isEmpty_append_colon, contains_append_colon]
    simp only [Bool.not_true, Bool.or_false, Bool.false_eq_true, if_false]
    rw [hsplit]
    simp only [List.headD, List.drop, List.head?]
    rw [isEmpty_eq_false_of_ne_nil (hexEncode_ne_nil hivne),
      isEmpty_eq_false_of_ne_nil (hexEncode_ne_nil hctne)]
    simp only [Bool.or_false, Bool.false_eq_true, if_false]
    rw [hexDecode_hexEncode hivb, hexDecode_hexEncode hctb]
    simp [hkey, hiv, hdec]

/-- A save whose serialization and (when configured) encryption succeed reports
success and leaves the new raw content at the collection path. -/
theorem saveFile_writes (p : Platform) (cfg : Config) (iv : List Nat)
    (fs : FStore) (c : String) (data : List JSValue) (raw : List Char)
    (hraw : (if cfg.encrypted then encrypt p cfg iv (p.jsonStringify data)
      else .ok (p.jsonStringify data)) = .ok raw) :
    (saveFile p cfg iv fs c data).1 = .ok () ∧
    (saveFile p cfg iv fs c data).2.1 (tdbxPath cfg c) = some raw := by
  rw [saveFile]
  rw [hraw]
  cases hfs : fs (tdbxPath cfg c) <;> simp [hfs, setFile]

/-- A load whose file is present, not blank, decodes through the configured
mode and parses to an array returns exactly that array and leaves the store
untouched. -/
theorem loadFile_of_parse (p : Platform) (cfg : Config) (iv : List Nat)
    (now : String) (fs : FStore) (c : String) (raw json : List Char)
    (R : List JSValue)
    (hfile : fs (tdbxPath cfg c) = some raw)
    (hblank : isBlank raw = false)
    (hdec : (if cfg.encrypted then decrypt p cfg raw else .ok raw) = .ok json)
    (hparse : p.jsonParse json = some (.arr R)) :
    loadFile p cfg iv now fs c = (R, fs) := by
  simp only [loadFile, hfile, hblank, hdec, hparse, Bool.false_eq_true, if_false]

theorem findSnap_append_single (a : List (String × List JSValue))
    (k c : String) (w v : List JSValue)
    (h : findSnap (a ++ [(k, w)]) c = some v) :
    findSnap a c = some v ∨ (k = c ∧ v = w) := by
  induction a with
  | nil =>
    rw [List.nil_append, findSnap] at h
    by_cases hk : k = c
    · rw [if_pos hk] at h
      exact Or.inr ⟨hk, (Option.some.inj h).symm⟩
    · rw [if_neg hk, findSnap] at h
      exact absurd h (by simp)
  | cons kv rest ih =>
    rcases kv with ⟨k1, v1⟩
    rw [List.cons_append, findSnap] at h
    rw [findSnap]
    by_cases hk : k1 = c
    · rw [if_pos hk] at h ⊢
      exact Or.inl h
    · rw [if_neg hk] at h ⊢
      exact ih h

/-- Invariant of recording: every snapshot stored in the transaction's backup
map equals the records the disk held when recording started (recording only
enqueues, it does not change the disk). -/
theorem txRecordAll_backups_snapshot (D : Disk) (ops : List (String × TxMut))
    (t : SpecTxn) (hinv : ∀ c v, findSnap t.backups c = some v → v = D c) :
    ∀ c v, findSnap (txRecordAll D t ops).backups c = some v → v = D c := by
  induction ops generalizing t with
  | nil => exact hinv
  | cons op rest ih =>
    intro c v hv
    rw [txRecordAll, List.foldl_cons] at hv
    refine ih (txRecord D t op.1 op.2) ?_ c v hv
    intro c1 v1 h1
    rw [txRecord] at h1
    dsimp at h1
    by_cases hs : (findSnap t.backups op.1).isSome
    · rw [if_pos hs] at h1
      exact hinv c1 v1 h1
    · rw [if_neg hs] at h1
      rcases findSnap_append_single _ _ _ _ _ h1 with h2 | ⟨hk, hval⟩
      · exact hinv c1 v1 h2
      · rw [hval, hk]

/-! Claim theorems. -/

/-- C1: evaluation of the code at the failing input.  In encrypted mode, a
collection file whose content cannot be decrypted (here it has no colon, so
the envelope framing check fails) makes decrypt fail with a decryption error —
yet loadFile returns the empty array, because the throw at line 162 of the
source is inside the function's own try block and the catch at line 195
swallows it.  The decryption error is not surfaced to the caller and the load
succeeds with a substitute result, contradicting the claim (which matches the
intent of the explicit throw in the source). -/
theorem loadFile_swallows_decryption_failure :
    decrypt toyPlatform encCfg ['n', 'o', 't', 'j', 's', 'o', 'n'] =
      .error "Decryption failed: Invalid encrypted data format" ∧
    fsSingle (tdbxPath encCfg "users") ['n', 'o', 't', 'j', 's', 'o', 'n']
        (tdbxPath encCfg "users") = some ['n', 'o', 't', 'j', 's', 'o', 'n'] ∧
    (loadFile toyPlatform encCfg toyIv "1700000000000"
      (fsSingle (tdbxPath encCfg "users") ['n', 'o', 't', 'j', 's', 'o', 'n'])
      "users").1 = [] :=
  ⟨rfl, rfl, rfl⟩

/-- C6: when a loaded collection file fails to JSON-parse (plain mode shown;
the content reaches the parser verbatim), the load copies the original bytes
to the timestamped sibling backup path, rewrites the collection file with the
serialization of the empty array, and returns the empty array. -/
theorem loadFile_corrupt_recovery (p : Platform) (cfg : Config) (iv : List Nat)
    (now : String) (fs : FStore) (c : String) (raw : List Char)
    (henc : cfg.encrypted = false)
    (hfile : fs (tdbxPath cfg c) = some raw)
    (hblank : isBlank raw = false)
    (hparse : p.jsonParse raw = none) :
    (loadFile p cfg iv now fs c).1 = [] ∧
    (loadFile p cfg iv now fs c).2 (tdbxPath cfg c ++ ".backup." ++ now) = some raw ∧
    (loadFile p cfg iv now fs c).2 (tdbxPath cfg c) = some (p.jsonStringify []) := by
  have h8 : (".backup." : String).length = 8 := by decide
  have h7 : (".backup" : String).length = 7 := by decide
  have hbfp : tdbxPath cfg c ++ ".backup." ++ now ≠ tdbxPath cfg c := by
    apply string_ne_of_length_ne
    rw [String.length_append, String.length_append]
    omega
  have hbbp : tdbxPath cfg c ++ ".backup." ++ now ≠ tdbxPath cfg c ++ ".backup" := by
    apply string_ne_of_length_ne
    rw [String.length_append, String.length_append, String.length_append]
    omega
  have hdecv : (if cfg.encrypted then decrypt p cfg raw else .ok raw) = .ok raw := by
    rw [henc]
    simp
  have hload : loadFile p cfg iv now fs c =
      ([], (saveFile p cfg iv
        (setFile fs (tdbxPath cfg c ++ ".backup." ++ now) raw) c []).2.1) := by
    simp only [loadFile, hfile, hblank, hdecv, hparse, Bool.false_eq_true, if_false]
  have hraw : (if cfg.encrypted then encrypt p cfg iv (p.jsonStringify [])
      else .ok (p.jsonStringify [])) = .ok (p.jsonStringify []) := by
    rw [henc]
    simp
  have hfs1 : setFile fs (tdbxPath cfg c ++ ".backup." ++ now) raw (tdbxPath cfg c) =
      some raw := by
    rw [setFile_ne _ _ _ _ (Ne.symm hbfp)]
    exact hfile
  have hsave : (saveFile p cfg iv
      (setFile fs (tdbxPath cfg c ++ ".backup." ++ now) raw) c []).2.1 =
      setFile (setFile (setFile fs (tdbxPath cfg c ++ ".backup." ++ now) raw)
        (tdbxPath cfg c ++ ".backup") raw) (tdbxPath cfg c) (p.jsonStringify []) := by
    rw [saveFile, hraw]
    simp only [hfs1]
  refine ⟨by rw [hload], ?_, ?_⟩
  · rw [hload]
    dsimp only
    rw [hsave, setFile_ne _ _ _ _ hbfp, setFile_ne _ _ _ _ hbbp, setFile_self]
  · rw [hload]
    dsimp only
    rw [hsave, setFile_self]

/-- C6 witness: the recovery statement applied to a concrete store holding
unparsable bytes under a plain-mode configuration. -/
theorem loadFile_corrupt_recovery_witness :
    plainCfg.encrypted = false ∧
    fsSingle fp0 ['n', 'o', 't', ' ', 'j', 's', 'o', 'n'] fp0 =
      some ['n', 'o', 't', ' ', 'j', 's', 'o', 'n'] ∧
    isBlank ['n', 'o', 't', ' ', 'j', 's', 'o', 'n'] = false ∧
    toyPlatformBadJson.jsonParse ['n', 'o', 't', ' ', 'j', 's', 'o', 'n'] = none ∧
    (loadFile toyPlatformBadJson plainCfg toyIv "1700000000000"
      (fsSingle fp0 ['n', 'o', 't', ' ', 'j', 's', 'o', 'n']) "users").1 = [] ∧
    (loadFile toyPlatformBadJson plainCfg toyIv "1700000000000"
      (fsSingle fp0 ['n', 'o', 't', ' ', 'j', 's', 'o', 'n']) "users").2
      (fp0 ++ ".backup." ++ "1700000000000") =
      some ['n', 'o', 't', ' ', 'j', 's', 'o', 'n'] ∧
    (loadFile toyPlatformBadJson plainCfg toyIv "1700000000000"
      (fsSingle fp0 ['n', 'o', 't', ' ', 'j', 's', 'o', 'n']) "users").2 fp0 =
      some (toyPlatformBadJson.jsonStringify []) :=
  ⟨rfl, rfl, by decide, rfl,
    (loadFile_corrupt_recovery toyPlatformBadJson plainCfg toyIv "1700000000000"
      (fsSingle fp0 ['n', 'o', 't', ' ', 'j', 's', 'o', 'n']) "users"
      ['n', 'o', 't', ' ', 'j', 's', 'o', 'n'] rfl rfl (by decide) rfl).1,
    (loadFile_corrupt_recovery toyPlatformBadJson plainCfg toyIv "1700000000000"
      (fsSingle fp0 ['n', 'o', 't', ' ', 'j', 's', 'o', 'n']) "users"
      ['n', 'o', 't', ' ', 'j', 's', 'o', 'n'] rfl rfl (by decide) rfl).2.1,
    (loadFile_corrupt_recovery toyPlatformBadJson plainCfg toyIv "1700000000000"
      (fsSingle fp0 ['n', 'o', 't', ' ', 'j', 's', 'o', 'n']) "users"
      ['n', 'o', 't', ' ', 'j', 's', 'o', 'n'] rfl rfl (by decide) rfl).2.2⟩

/-- C5 (spec-modelled): rolling back a transaction built by recording any
sequence of mutations against a database state leaves every touched
(snapshotted) collection with exactly its pre-transaction records — whatever
state a partially replayed commit may have left on disk — and clears the
transaction. -/
theorem txRollback_restores (D : Disk) (ops : List (String × TxMut)) (D2 : Disk)
    (c : String) (h : txTouched (txRecordAll D txBegin ops) c = true) :
    (txRollback (txRecordAll D txBegin ops) D2).1 c = D c ∧
    (txRollback (txRecordAll D txBegin ops) D2).2 = none := by
  refine ⟨?_, rfl⟩
  rw [txTouched] at h
  obtain ⟨v, hv⟩ := Option.isSome_iff_exists.mp h
  have hval : v = D c := by
    refine txRecordAll_backups_snapshot D ops txBegin ?_ c v hv
    intro c1 v1 h1
    rw [txBegin] at h1
    rw [findSnap] at h1
    exact absurd h1 (by simp)
  rw [txRollback]
  dsimp
  rw [hv]
  exact hval

/-- C5 witness: the restoration statement applied to a concrete two-operation
transaction rolled back from a half-replayed state. -/
theorem txRollback_restores_witness :
    txTouched (txRecordAll dWit txBegin opsWit) "A" = true ∧
    (txRollback (txRecordAll dWit txBegin opsWit) d2Wit).1 "A" = dWit "A" ∧
    (txRollback (txRecordAll dWit txBegin opsWit) d2Wit).2 = none :=
  ⟨by decide, (txRollback_restores dWit opsWit d2Wit "A" (by decide)).1,
    (txRollback_restores dWit opsWit d2Wit "A" (by decide)).2⟩

/-- C7 counterexample: for the empty record r and the filter F binding field a
to 1, matching r against the not-wrapped filter yields false and matching r
against F also yields false, so the claimed identity match(r, not F) =
negation of match(r, F) fails: the left side is false while the right side is
true. -/
theorem matchFilter_not_counterexample :
    matchFilter (.obj []) (.obj [("$not", .obj [("a", .num 1)])]) = false ∧
    matchFilter (.obj []) (.obj [("a", .num 1)]) = false ∧
    matchFilter (.obj []) (.obj [("$not", .obj [("a", .num 1)])]) ≠
      !matchFilter (.obj []) (.obj [("a", .num 1)]) := by
  refine ⟨by decide, by decide, by decide⟩

/-- C7 (amended): the matcher implements no not-combinator; a key named $not
is treated as an ordinary field name, so for every record without a $not
field and every object subfilter, matching the record against the not-wrapped
filter returns false outright, regardless of whether the subfilter matches
the record. -/
theorem matchFilter_not_treated_as_field (row : JSValue)
    (fsF : List (String × JSValue))
    (hrow : getProp row "$not" = .undefined) :
    matchFilter row (.obj [("$not", .obj fsF)]) = false := by
  simp [matchFilter, truthy, ownKeys, matchPair, isObjType, jsStrictEq, hrow]

/-- C7 witness: the amended statement applied to the empty record and the
subfilter binding a to 1. -/
theorem matchFilter_not_treated_as_field_witness :
    getProp (.obj []) "$not" = JSValue.undefined ∧
    matchFilter (.obj []) (.obj [("$not", .obj [("a", .num 1)])]) = false :=
  ⟨rfl, matchFilter_not_treated_as_field (.obj []) [("a", .num 1)] rfl⟩

/-- C8 counterexample: projecting the empty record onto the field list with
the single name a yields the record binding a to undefined — the projected
record contains a key that is not present in the input record, and is not the
empty record the claim requires. -/
theorem projectFields_counterexample :
    projectFields (.obj []) (some ["a"]) = .obj [("a", .undefined)] ∧
    projectFields (.obj []) (some ["a"]) ≠ .obj [] := by
  refine ⟨rfl, ?_⟩
  intro h
  rw [projectFields] at h
  simp [setProp, hasKey] at h

/-- C8 (amended): for a duplicate-free field list, projection returns a record
whose keys are exactly the listed fields, in the given order, each bound to
the record's value for that field — which is undefined (rather than the key
being omitted) when the record lacks the field. -/
theorem projectFields_exact_fields (row : JSValue) (fields : List String)
    (hnd : fields.Nodup) :
    objKeys (projectFields row (some fields)) = fields ∧
    ∀ f ∈ fields, getProp (projectFields row (some fields)) f = getProp row f := by
  obtain ⟨hkeys, hlook⟩ := foldl_setProp_keys row fields []
    hnd (by intro f _; rfl)
  constructor
  · rw [projectFields, objKeys, hkeys]
    rfl
  · intro f hf
    rw [projectFields, getProp]
    exact hlook f hf

/-- C10: whenever the collection file already exists, a successful save first
copies the file's current content to the fixed sibling backup path
(overwriting it) and only then writes the new content: the recorded operation
trace is exactly the copy followed by the write, and afterwards the pre-save
content sits at the backup path. -/
theorem saveFile_backs_up_previous (p : Platform) (cfg : Config) (iv : List Nat)
    (fs : FStore) (c : String) (data : List JSValue) (cur : List Char)
    (hcur : fs (tdbxPath cfg c) = some cur)
    (hok : (saveFile p cfg iv fs c data).1 = .ok ()) :
    (saveFile p cfg iv fs c data).2.2 =
      [FSOp.copy (tdbxPath cfg c) (tdbxPath cfg c ++ ".backup"),
        FSOp.write (tdbxPath cfg c)] ∧
    (saveFile p cfg iv fs c data).2.1 (tdbxPath cfg c ++ ".backup") = some cur := by
  rw [saveFile] at hok ⊢
  cases hraw : (if cfg.encrypted then encrypt p cfg iv (p.jsonStringify data)
      else .ok (p.jsonStringify data)) with
  | error e =>
    rw [hraw] at hok
    simp at hok
  | ok raw =>
    simp only [hcur]
    have hne : tdbxPath cfg c ++ ".backup" ≠ tdbxPath cfg c :=
      append_ne_self_of_ne_empty _ _ (by decide)
    simp [setFile, hne]

/-- C10 witness: the backup statement applied to a concrete plain-mode save
over an existing file. -/
theorem saveFile_backs_up_previous_witness :
    fs0 fp0 = some ['[', ']'] ∧
    (saveFile toyPlatform plainCfg toyIv fs0 "users" []).1 = .ok () ∧
    (saveFile toyPlatform plainCfg toyIv fs0 "users" []).2.2 =
      [FSOp.copy fp0 (fp0 ++ ".backup"), FSOp.write fp0] ∧
    (saveFile toyPlatform plainCfg toyIv fs0 "users" []).2.1 (fp0 ++ ".backup") =
      some ['[', ']'] :=
  ⟨rfl, rfl,
    (saveFile_backs_up_previous toyPlatform plainCfg toyIv fs0 "users" [] _ rfl rfl).1,
    (saveFile_backs_up_previous toyPlatform plainCfg toyIv fs0 "users" [] _ rfl rfl).2⟩

/-- C2 counterexample: on a concrete save over an existing file, the enhanced
saveFile performs exactly a copy to the fixed backup path followed by a direct
write of the collection path, and the minimal saveFile performs exactly the
direct write; neither trace contains a write to the .tmp sibling or any
rename, contradicting the claimed write-to-tmp-then-rename protocol. -/
theorem saveFile_no_tmp_no_rename :
    (saveFile toyPlatform plainCfg toyIv fs0 "users" []).2.2 =
      [FSOp.copy fp0 (fp0 ++ ".backup"), FSOp.write fp0] ∧
    ((saveFile toyPlatform plainCfg toyIv fs0 "users" []).2.2.all
      (fun op => !isRename op && !(op == FSOp.write (fp0 ++ ".tmp")))) = true ∧
    (saveFileSrc toyPlatform plainCfg toyIv fs0 "users" []).2.2 = [FSOp.write fp0] ∧
    ((saveFileSrc toyPlatform plainCfg toyIv fs0 "users" []).2.2.all
      (fun op => !isRename op && !(op == FSOp.write (fp0 ++ ".tmp")))) = true := by
  refine ⟨by decide, by decide, by decide, by decide⟩

/-- C2 (amended): in either mode, a save whose serialization (and, when
configured, encryption) succeeds reports success and writes the resulting
bytes directly to the collection path — copying an existing file to the fixed
backup sibling first — and its operation trace contains no rename and no write
to the .tmp sibling, so no atomic temp-file protocol is involved. -/
theorem saveFile_direct_write (p : Platform) (cfg : Config) (iv : List Nat)
    (fs : FStore) (c : String) (data : List JSValue) (raw : List Char)
    (hraw : (if cfg.encrypted then encrypt p cfg iv (p.jsonStringify data)
      else .ok (p.jsonStringify data)) = .ok raw) :
    (saveFile p cfg iv fs c data).1 = .ok () ∧
    (saveFile p cfg iv fs c data).2.1 (tdbxPath cfg c) = some raw ∧
    ((saveFile p cfg iv fs c data).2.2.all
      (fun op => !isRename op && !(op == FSOp.write (tdbxPath cfg c ++ ".tmp")))) = true := by
  obtain ⟨h1, h2⟩ := saveFile_writes p cfg iv fs c data raw hraw
  refine ⟨h1, h2, ?_⟩
  rw [saveFile, hraw]
  have hne : FSOp.write (tdbxPath cfg c) ≠ FSOp.write (tdbxPath cfg c ++ ".tmp") := by
    intro h
    exact append_ne_self_of_ne_empty (tdbxPath cfg c) ".tmp" (by decide)
      (FSOp.write.inj h).symm
  cases hcur : fs (tdbxPath cfg c) <;>
    simp [hcur, isRename, List.all_cons, List.all_nil, beq_eq_false_iff_ne, hne]

/-- C2 witness: the direct-write statement applied to a concrete plain-mode
save. -/
theorem saveFile_direct_write_witness :
    (if plainCfg.encrypted then encrypt toyPlatform plainCfg toyIv
        (toyPlatform.jsonStringify []) else .ok (toyPlatform.jsonStringify [])) =
      .ok ['[', '1', ']'] ∧
    (saveFile toyPlatform plainCfg toyIv fs0 "users" []).1 = .ok () ∧
    (saveFile toyPlatform plainCfg toyIv fs0 "users" []).2.1 fp0 = some ['[', '1', ']'] ∧
    ((saveFile toyPlatform plainCfg toyIv fs0 "users" []).2.2.all
      (fun op => !isRename op && !(op == FSOp.write (fp0 ++ ".tmp")))) = true :=
  ⟨rfl, (saveFile_direct_write toyPlatform plainCfg toyIv fs0 "users" [] _ rfl).1,
    (saveFile_direct_write toyPlatform plainCfg toyIv fs0 "users" [] _ rfl).2.1,
    (saveFile_direct_write toyPlatform plainCfg toyIv fs0 "users" [] _ rfl).2.2⟩

/-- C3 counterexample: a concrete encrypted save produces an envelope of
exactly two colon-separated fields — the hex IV and the hex ciphertext — not
the three fields (salt, IV, ciphertext) the claim states. -/
theorem encrypt_envelope_counterexample :
    (splitOnChar ':' (okD (encrypt toyPlatform encCfg toyIv
      (toyPlatform.jsonStringify [])))).length = 2 ∧
    (splitOnChar ':' (okD (encrypt toyPlatform encCfg toyIv
      (toyPlatform.jsonStringify [])))).length ≠ 3 := by
  refine ⟨by decide, by decide⟩

/-- C3 (amended): every encrypted save writes the envelope as exactly two hex
fields joined by a colon — a fresh 16-byte random IV and the ciphertext — and
derives the 32-byte AES key as the single SHA-256 digest of the configured
passphrase; there is no salt field and no iterated key derivation. -/
theorem encrypt_envelope_two_fields (p : Platform) (cfg : Config) (iv : List Nat)
    (data : List Char)
    (hkey : (p.sha256 cfg.encryptionKey).length = 32)
    (hiv : iv.length = 16) :
    encrypt p cfg iv data =
      .ok (hexEncode iv ++ ':' ::
        hexEncode (p.aesEnc (p.sha256 cfg.encryptionKey) iv data)) ∧
    splitOnChar ':' (hexEncode iv ++ ':' ::
        hexEncode (p.aesEnc (p.sha256 cfg.encryptionKey) iv data)) =
      [hexEncode iv, hexEncode (p.aesEnc (p.sha256 cfg.encryptionKey) iv data)] := by
  constructor
  · simp [encrypt, hkey, hiv]
  · rw [splitOnChar_append _ _ (colon_not_mem_hexEncode iv),
      splitOnChar_not_mem (colon_not_mem_hexEncode _)]

/-- C3 witness: the two-field envelope statement applied to the concrete
platform, configuration and IV. -/
theorem encrypt_envelope_two_fields_witness :
    (toyPlatform.sha256 encCfg.encryptionKey).length = 32 ∧
    toyIv.length = 16 ∧
    encrypt toyPlatform encCfg toyIv ['[', ']'] =
      .ok (hexEncode toyIv ++ ':' ::
        hexEncode (toyPlatform.aesEnc (toyPlatform.sha256 encCfg.encryptionKey)
          toyIv ['[', ']'])) :=
  ⟨by decide, by decide,
    (encrypt_envelope_two_fields toyPlatform encCfg toyIv ['[', ']']
      (by decide) (by decide)).1⟩

/-- C4: in either mode, loading a collection immediately after saving records
R to it returns R, given the facts the Node runtime guarantees about its
primitives: the JSON codec round-trips R, the serialized form is not blank,
the digest is 32 bytes, the IV is 16 bytes, and the cipher inverts itself on
the saved payload. -/
theorem load_after_save_roundtrip (p : Platform) (cfg : Config) (iv : List Nat)
    (now : String) (fs : FStore) (c : String) (R : List JSValue)
    (hparse : p.jsonParse (p.jsonStringify R) = some (.arr R))
    (hblank : isBlank (p.jsonStringify R) = false)
    (hkey : (p.sha256 cfg.encryptionKey).length = 32)
    (hiv : iv.length = 16) (hivb : ∀ b ∈ iv, b < 256)
    (hctne : p.aesEnc (p.sha256 cfg.encryptionKey) iv (p.jsonStringify R) ≠ [])
    (hctb : ∀ b ∈ p.aesEnc (p.sha256 cfg.encryptionKey) iv (p.jsonStringify R),
      b < 256)
    (hdec : p.aesDec (p.sha256 cfg.encryptionKey) iv
      (p.aesEnc (p.sha256 cfg.encryptionKey) iv (p.jsonStringify R)) =
        some (p.jsonStringify R)) :
    (saveFile p cfg iv fs c R).1 = .ok () ∧
    (loadFile p cfg iv now (saveFile p cfg iv fs c R).2.1 c).1 = R := by
  cases hmode : cfg.encrypted with
  | false =>
    have hraw : (if cfg.encrypted then encrypt p cfg iv (p.jsonStringify R)
        else .ok (p.jsonStringify R)) = .ok (p.jsonStringify R) := by
      rw [hmode]
      simp
    obtain ⟨h1, h2⟩ := saveFile_writes p cfg iv fs c R _ hraw
    refine ⟨h1, ?_⟩
    rw [loadFile_of_parse p cfg iv now _ c (p.jsonStringify R) (p.jsonStringify R)
      R h2 hblank (by rw [hmode]; simp) hparse]
  | true =>
    obtain ⟨henc, hdecv⟩ := decrypt_encrypt_ok p cfg iv (p.jsonStringify R)
      hkey hiv hivb hctne hctb hdec
    have hraw : (if cfg.encrypted then encrypt p cfg iv (p.jsonStringify R)
        else .ok (p.jsonStringify R)) =
        .ok (hexEncode iv ++ ':' ::
          hexEncode (p.aesEnc (p.sha256 cfg.encryptionKey) iv (p.jsonStringify R))) := by
      rw [hmode]
      simpa using henc
    obtain ⟨h1, h2⟩ := saveFile_writes p cfg iv fs c R _ hraw
    refine ⟨h1, ?_⟩
    rw [loadFile_of_parse p cfg iv now _ c _ (p.jsonStringify R) R h2
      (isBlank_append_colon _ _) (by rw [hmode]; simpa using hdecv) hparse]

/-- C4 witness: the round-trip statement applied to the concrete platform in
encrypted mode on the one-record array. -/
theorem load_after_save_roundtrip_witness :
    toyPlatform.jsonParse (toyPlatform.jsonStringify [JSValue.num 1]) =
      some (.arr [JSValue.num 1]) ∧
    isBlank (toyPlatform.jsonStringify [JSValue.num 1]) = false ∧
    (toyPlatform.sha256 encCfg.encryptionKey).length = 32 ∧
    toyIv.length = 16 ∧
    (∀ b ∈ toyIv, b < 256) ∧
    toyPlatform.aesEnc (toyPlatform.sha256 encCfg.encryptionKey) toyIv
      (toyPlatform.jsonStringify [JSValue.num 1]) ≠ [] ∧
    (∀ b ∈ toyPlatform.aesEnc (toyPlatform.sha256 encCfg.encryptionKey) toyIv
      (toyPlatform.jsonStringify [JSValue.num 1]), b < 256) ∧
    toyPlatform.aesDec (toyPlatform.sha256 encCfg.encryptionKey) toyIv
      (toyPlatform.aesEnc (toyPlatform.sha256 encCfg.encryptionKey) toyIv
        (toyPlatform.jsonStringify [JSValue.num 1])) =
      some (toyPlatform.jsonStringify [JSValue.num 1]) ∧
    (saveFile toyPlatform encCfg toyIv fs0 "users" [JSValue.num 1]).1 = .ok () ∧
    (loadFile toyPlatform encCfg toyIv "1700000000000"
      (saveFile toyPlatform encCfg toyIv fs0 "users" [JSValue.num 1]).2.1
      "users").1 = [JSValue.num 1] :=
  ⟨rfl, by decide, by decide, by decide, by decide, by decide, by decide, rfl,
    (load_after_save_roundtrip toyPlatform encCfg toyIv "1700000000000" fs0
      "users" [JSValue.num 1] rfl (by decide) (by decide) (by decide) (by decide)
      (by decide) (by decide) rfl).1,
    (load_after_save_roundtrip toyPlatform encCfg toyIv "1700000000000" fs0
      "users" [JSValue.num 1] rfl (by decide) (by decide) (by decide) (by decide)
      (by decide) (by decide) rfl).2⟩

/-- C9: a falsy (absent) filter matches every record, as does the empty-object
filter; consequently queryObject with no filter and no projection returns
every loaded record, and delete with the empty-object filter removes every
record — it reports the full pre-delete count and saves the empty array as the
collection's new content (plain mode shown for the saved bytes). -/
theorem emptyFilter_selects_all :
    (∀ row : JSValue, matchFilter row .undefined = true) ∧
    (∀ row : JSValue, matchFilter row (.obj []) = true) ∧
    (∀ (p : Platform) (cfg : Config) (auth : List (String × List String))
      (role : String) (iv : List Nat) (now : String) (fs : FStore) (c : String),
      checkPermission auth role "query" = .ok () → validName c = true →
      (queryObject p cfg auth role iv now fs c .undefined none).1 =
        .ok ((loadFile p cfg iv now fs c).1)) ∧
    (∀ (p : Platform) (cfg : Config) (auth : List (String × List String))
      (role : String) (iv : List Nat) (now : String) (fs : FStore) (c : String),
      checkPermission auth role "delete" = .ok () → validName c = true →
      cfg.encrypted = false →
      (deleteOp p cfg auth role iv now fs c (.obj [])).1 =
        .ok ((loadFile p cfg iv now fs c).1.length) ∧
      (deleteOp p cfg auth role iv now fs c (.obj [])).2.1 (tdbxPath cfg c) =
        some (p.jsonStringify [])) := by
  have hundef : ∀ row : JSValue, matchFilter row .undefined = true := by
    intro row
    rfl
  have hempty : ∀ row : JSValue, matchFilter row (.obj []) = true := by
    intro row
    rfl
  refine ⟨hundef, hempty, ?_, ?_⟩
  · intro p cfg auth role iv now fs c hperm hname
    rw [queryObject, hperm]
    simp only [hname, Bool.not_true, Bool.false_eq_true, if_false]
    have hall : (loadFile p cfg iv now fs c).1.filter
        (fun row => matchFilter row .undefined) = (loadFile p cfg iv now fs c).1 := by
      simp [hundef]
    rw [hall]
    simp [projectFields]
  · intro p cfg auth role iv now fs c hperm hname hplain
    have hnone : (loadFile p cfg iv now fs c).1.filter
        (fun row => !matchFilter row (.obj [])) = [] := by
      have : (fun row : JSValue => !matchFilter row (.obj [])) =
          fun _ => false := by
        funext row
        rw [hempty row]
        rfl
      rw [this, filter_const_false]
    have hraw : (if cfg.encrypted then encrypt p cfg iv (p.jsonStringify [])
        else .ok (p.jsonStringify [])) = .ok (p.jsonStringify []) := by
      rw [hplain]
      simp
    obtain ⟨hs1, hs2⟩ := saveFile_writes p cfg iv (loadFile p cfg iv now fs c).2
      c [] _ hraw
    rw [deleteOp, hperm]
    simp only [hname, Bool.not_true, Bool.false_eq_true, if_false]
    simp only [hnone, hs1]
    exact ⟨rfl, hs2⟩

/-- C9 witness: the query and delete parts applied to the concrete admin
configuration over a store holding one record. -/
theorem emptyFilter_selects_all_witness :
    checkPermission toyAuth "admin" "query" = .ok () ∧
    checkPermission toyAuth "admin" "delete" = .ok () ∧
    validName "users" = true ∧
    plainCfg.encrypted = false ∧
    (queryObject toyPlatform plainCfg toyAuth "admin" toyIv "1700000000000" fs0
      "users" .undefined none).1 =
      .ok ((loadFile toyPlatform plainCfg toyIv "1700000000000" fs0 "users").1) ∧
    (deleteOp toyPlatform plainCfg toyAuth "admin" toyIv "1700000000000" fs0
      "users" (.obj [])).1 =
      .ok ((loadFile toyPlatform plainCfg toyIv "1700000000000" fs0 "users").1.length) ∧
    (deleteOp toyPlatform plainCfg toyAuth "admin" toyIv "1700000000000" fs0
      "users" (.obj [])).2.1 fp0 = some (toyPlatform.jsonStringify []) :=
  ⟨rfl, rfl, by decide, rfl,
    emptyFilter_selects_all.2.2.1 toyPlatform plainCfg toyAuth "admin" toyIv
      "1700000000000" fs0 "users" rfl (by decide),
    (emptyFilter_selects_all.2.2.2 toyPlatform plainCfg toyAuth "admin" toyIv
      "1700000000000" fs0 "users" rfl (by decide) rfl).1,
    (emptyFilter_selects_all.2.2.2 toyPlatform plainCfg toyAuth "admin" toyIv
      "1700000000000" fs0 "users" rfl (by decide) rfl).2⟩

/-- C8 witness: the amended statement applied to the record binding b to 2 and
the field list a, b. -/
theorem projectFields_exact_fields_witness :
    (["a", "b"] : List String).Nodup ∧
    objKeys (projectFields (.obj [("b", .num 2)]) (some ["a", "b"])) = ["a", "b"] ∧
    getProp (projectFields (.obj [("b", .num 2)]) (some ["a", "b"])) "b" =
      getProp (.obj [("b", .num 2)]) "b" :=
  ⟨by decide, (projectFields_exact_fields (.obj [("b", .num 2)]) ["a", "b"] (by decide)).1,
    (projectFields_exact_fields (.obj [("b", .num 2)]) ["a", "b"] (by decide)).2
      "b" (by decide)⟩

end TextDBX
